import Mathlib

/-!
Verification of `prime_search.py`: a shallow embedding of the primality test,
the range scanner, and the driver, with theorems checking the specification's
claims against the code.
-/

namespace PrimeSearch

/-- Loop of the 6k±1 trial-division test in `is_prime` (src/prime_search.py,
lines 12-17): `while i * i <= num: if num % i == 0 or num % (i + 2) == 0:
return False; i += 6`, returning `True` when the loop exits normally. -/
def trial_loop (num i : Int) : Bool :=
  if h : i * i ≤ num then
    if num % i == 0 || num % (i + 2) == 0 then false
    else trial_loop num (i + 6)
  else true
termination_by (num + 1 - i).toNat
decreasing_by
  have h1 : i ≤ i * i := by
    rcases le_or_lt i 0 with hi | hi
    · exact hi.trans (mul_self_nonneg i)
    · nlinarith
  have h2 : i ≤ num := le_trans h1 h
  omega

/-- Embedding of `is_prime` (src/prime_search.py, lines 4-17). -/
def is_prime (num : Int) : Bool :=
  if num ≤ 1 then false
  else if num ≤ 3 then true
  else if num % 2 == 0 || num % 3 == 0 then false
  else trial_loop num 5

/-- Integer range as produced by Python `range(start, stop)`:
the list `start, start + 1, ..., stop - 1` (empty when `stop ≤ start`). -/
def int_range (start stop : Int) : List Int :=
  (List.range (stop - start).toNat).map (fun k : ℕ => start + (k : Int))

/-- Embedding of `find_primes` (src/prime_search.py, lines 19-25): collect, in
iteration order, the elements of `range(start, end + 1)` passing `is_prime`. -/
def find_primes (start e : Int) : List Int :=
  (int_range start (e + 1)).filter (fun num => is_prime num)

/-- Usage message printed on wrong argument count (line 29). -/
def usage_message : String := "Usage: python prime_search.py <start> <end>"

/-- Name of the output file, `primes_{start}_{end}.txt` with the parsed integers
rendered in decimal (line 36). -/
def output_file_name (start e : Int) : String :=
  "primes_" ++ toString start ++ "_" ++ toString e ++ ".txt"

/-- Content written to the output file: for each prime found, its decimal
rendering followed by a newline (lines 37-39). -/
def output_content (start e : Int) : String :=
  String.join ((find_primes start e).map (fun p => toString p ++ "\n"))

/-- Value of a nonempty all-digit character sequence in base 10, `none`
otherwise. -/
def digits_value (l : List Char) : Option Nat :=
  if !l.isEmpty && l.all Char.isDigit then
    some (l.foldl (fun n c => n * 10 + (c.toNat - '0'.toNat)) 0)
  else none

/-- Modelled from the spec: the Python builtin `int` applied to the argument
strings (library code outside this repository, invoked at lines 32-33), which
succeeds exactly on valid integer literals, an optional sign followed by
decimal digits, and fails with an uncaught `ValueError` otherwise. -/
def parse_int (s : String) : Option Int :=
  match s.data with
  | [] => none
  | c :: rest =>
    if c = '-' then (digits_value rest).map (fun n => -(n : Int))
    else if c = '+' then (digits_value rest).map (fun n => (n : Int))
    else (digits_value (c :: rest)).map (fun n => (n : Int))

/-- Observable outcome of one driver run: usage message printed and exit with a
code, abnormal termination on a parse error, or an output file written. -/
inductive DriverResult where
  | usageExit (msg : String) (code : Nat)
  | parseError
  | wroteFile (name content : String)
deriving DecidableEq

/-- Embedding of the `__main__` driver (lines 27-39) as a function of the full
argv (program name included): wrong length prints usage and exits 1; a
non-integer argument raises an uncaught error; otherwise the primes in the
parsed range are written to the range-named file. -/
def run_driver (argv : List String) : DriverResult :=
  match argv with
  | [_, a, b] =>
    match parse_int a, parse_int b with
    | some s, some e => DriverResult.wroteFile (output_file_name s e) (output_content s e)
    | _, _ => DriverResult.parseError
  | _ => DriverResult.usageExit usage_message 1

/-- Files created or modified by a driver outcome. -/
def files_written : DriverResult → List (String × String)
  | DriverResult.wroteFile n c => [(n, c)]
  | _ => []

/-- Effect of a successful run with bounds `start`, `e` on a file system (a map
from file names to contents): the output file is overwritten, all else kept. -/
def run_on (fs : String → Option String) (start e : Int) : String → Option String :=
  fun name => if name = output_file_name start e then some (output_content start e) else fs name

/-- Termination predicate for the while-loop of `is_prime`: `LoopTerm num i`
holds exactly when execution of the loop from loop variable `i` reaches a
`return` of the enclosing function in finitely many steps. -/
inductive LoopTerm : Int → Int → Prop where
  | exit : ∀ num i, i * i ≤ num → (num % i = 0 ∨ num % (i + 2) = 0) → LoopTerm num i
  | done : ∀ num i, ¬ i * i ≤ num → LoopTerm num i
  | step : ∀ num i, i * i ≤ num → ¬ (num % i = 0 ∨ num % (i + 2) = 0) →
      LoopTerm num (i + 6) → LoopTerm num i

/-- Modelled from the spec glossary (refinement reference point, not from the
source): naive trial division, which declares an integer of at least 2 prime
when no candidate factor from 2 up to its square root divides it, and any
smaller integer not prime. -/
def naive_is_prime (num : Int) : Bool :=
  if num < 2 then false
  else (List.range' 2 (num.toNat.sqrt - 1)).all (fun d => !(num % (d : Int) == 0))

lemma int_le_mul_self (i : Int) : i ≤ i * i := by
  rcases le_or_lt i 0 with hi | hi
  · exact hi.trans (mul_self_nonneg i)
  · nlinarith

/-- A divisor of `num` strictly between 1 and `num` yields a divisor whose
square is at most `num` (either itself or its cofactor). -/
lemma exists_small_divisor {num d : Int} (hnum : 2 ≤ num) (hdvd : d ∣ num)
    (hd2 : 2 ≤ d) (hne : d ≠ num) :
    ∃ k : Int, 2 ≤ k ∧ k * k ≤ num ∧ k ∣ num := by
  rcases hdvd with ⟨k, hk⟩
  rcases le_or_lt (d * d) num with h | h
  · exact ⟨d, hd2, h, ⟨k, hk⟩⟩
  · have hd0 : (0 : Int) < d := by omega
    have hk0 : (0 : Int) < k := by nlinarith
    have hkd : k < d := by nlinarith
    have hk2 : (2 : Int) ≤ k := by
      by_contra hcon
      push_neg at hcon
      have hk1 : k = 1 := by omega
      subst hk1
      rw [mul_one] at hk
      exact hne hk.symm
    exact ⟨k, hk2, by nlinarith, ⟨d, by rw [hk, mul_comm]⟩⟩

/-- Absence of a divisor below the square root characterises primality of the
corresponding natural number. -/
lemma no_small_divisor_iff_prime {num : Int} (h2 : 2 ≤ num) :
    (∀ d : Int, 2 ≤ d → d * d ≤ num → ¬ d ∣ num) ↔ Nat.Prime num.toNat := by
  have hnum : (num.toNat : Int) = num := Int.toNat_of_nonneg (by omega)
  constructor
  · intro h
    rw [Nat.prime_def]
    refine ⟨by omega, ?_⟩
    intro m hm
    by_contra hcon
    push_neg at hcon
    obtain ⟨hm1, hmp⟩ := hcon
    have hm0 : m ≠ 0 := by
      rintro rfl
      have := Nat.eq_zero_of_zero_dvd hm
      omega
    have hm2 : 2 ≤ m := by omega
    have hdvd : (m : Int) ∣ num := by
      rw [← hnum]
      exact_mod_cast hm
    have hne : (m : Int) ≠ num := by
      intro hEq
      apply hmp
      omega
    obtain ⟨k, hk2, hkk, hkdvd⟩ :=
      exists_small_divisor h2 hdvd (by exact_mod_cast hm2) hne
    exact h k hk2 hkk hkdvd
  · intro hp d hd2 hdd hdvd
    have hd_nat : d.toNat ∣ num.toNat := by
      have hcast : ((d.toNat : Int)) ∣ num := by
        rwa [Int.toNat_of_nonneg (by omega : (0:Int) ≤ d)]
      rw [← hnum] at hcast
      exact_mod_cast hcast
    rcases (Nat.prime_def.mp hp).2 d.toNat hd_nat with h1 | h1
    · omega
    · have hdnum : d = num := by omega
      subst hdnum
      nlinarith

/-- Loop invariant of the 6k±1 trial loop: running from a state `i ≡ 5 (mod 6)`
with no divisor of `num` below `i` and at most the square root, the loop
returns `True` exactly when `num` has no divisor at most its square root. -/
theorem trial_loop_iff (num : Int) (hnum : 5 ≤ num) (h2 : ¬ (2 ∣ num)) (h3 : ¬ (3 ∣ num))
    (i : Int) (hi5 : 5 ≤ i) (hi6 : i % 6 = 5)
    (hbelow : ∀ d : Int, 2 ≤ d → d * d ≤ num → d < i → ¬ d ∣ num) :
    (trial_loop num i = true ↔ ∀ d : Int, 2 ≤ d → d * d ≤ num → ¬ d ∣ num) := by
  rw [trial_loop]
  split
  next hguard =>
    split
    next hdiv =>
      simp only [Bool.or_eq_true, beq_iff_eq] at hdiv
      refine iff_of_false (by simp) ?_
      intro hAll
      rcases hdiv with hd | hd
      · exact hAll i (by omega) hguard (by omega)
      · have hdvd : (i + 2) ∣ num := by omega
        have hne : i + 2 ≠ num := by
          intro hEq
          nlinarith
        obtain ⟨k, hk2, hkk, hkdvd⟩ :=
          exists_small_divisor (by omega) hdvd (by omega) hne
        exact hAll k hk2 hkk hkdvd
    next hdiv =>
      simp only [Bool.or_eq_true, beq_iff_eq, not_or] at hdiv
      obtain ⟨hmi, hmi2⟩ := hdiv
      apply trial_loop_iff num hnum h2 h3 (i + 6) (by omega) (by omega)
      intro d hd2 hdd hdlt hddvd
      rcases lt_or_le d i with hdi | hdi
      · exact hbelow d hd2 hdd hdi hddvd
      · have h6 : d = i ∨ d = i + 1 ∨ d = i + 2 ∨ d = i + 3 ∨ d = i + 4 ∨ d = i + 5 := by
          omega
        rcases h6 with rfl | rfl | rfl | rfl | rfl | rfl
        · exact hmi (by omega)
        · exact h2 (dvd_trans (by omega) hddvd)
        · exact hmi2 (by omega)
        · exact h2 (dvd_trans (by omega) hddvd)
        · exact h3 (dvd_trans (by omega) hddvd)
        · exact h2 (dvd_trans (by omega) hddvd)
  next hguard =>
    refine iff_of_true rfl ?_
    intro d hd2 hdd
    apply hbelow d hd2 hdd
    push_neg at hguard
    nlinarith
termination_by (num + 1 - i).toNat
decreasing_by
  have h1 : i ≤ i * i := int_le_mul_self i
  have h2 : i ≤ num := le_trans h1 (by assumption)
  omega

/-- Characterisation of `is_prime` by absence of divisors up to the square root. -/
lemma is_prime_iff_aux (num : Int) :
    is_prime num = true ↔ (2 ≤ num ∧ ∀ d : Int, 2 ≤ d → d * d ≤ num → ¬ d ∣ num) := by
  unfold is_prime
  split
  next h1 =>
    refine iff_of_false (by simp) ?_
    rintro ⟨h, _⟩
    omega
  next h1 =>
    split
    next h3 =>
      refine iff_of_true rfl ⟨by omega, ?_⟩
      intro d hd2 hdd hdvd
      nlinarith
    next h3 =>
      split
      next hdiv =>
        simp only [Bool.or_eq_true, beq_iff_eq] at hdiv
        refine iff_of_false (by simp) ?_
        rintro ⟨hge, hAll⟩
        rcases hdiv with hd | hd
        · exact hAll 2 (by omega) (by omega) (by omega)
        · by_cases h2d : (2 : Int) ∣ num
          · exact hAll 2 (by omega) (by omega) h2d
          · exact hAll 3 (by omega) (by omega) (by omega)
      next hdiv =>
        simp only [Bool.or_eq_true, beq_iff_eq, not_or] at hdiv
        obtain ⟨hm2, hm3⟩ := hdiv
        have hnum5 : (5 : Int) ≤ num := by omega
        have hbelow0 : ∀ d : Int, 2 ≤ d → d * d ≤ num → d < 5 → ¬ d ∣ num := by
          intro d hd2 hdd hlt hdvd
          interval_cases d <;> omega
        rw [trial_loop_iff num hnum5 (by omega) (by omega) 5 (by omega) (by omega) hbelow0]
        constructor
        · intro h
          exact ⟨by omega, h⟩
        · rintro ⟨_, h⟩
          exact h

/-- `is_prime` returns `True` exactly on the (positive) prime numbers. -/
lemma is_prime_iff_nat_prime_aux (num : Int) :
    is_prime num = true ↔ (1 < num ∧ Nat.Prime num.toNat) := by
  rw [is_prime_iff_aux]
  constructor
  · rintro ⟨h2, hAll⟩
    exact ⟨by omega, (no_small_divisor_iff_prime h2).mp hAll⟩
  · rintro ⟨h1, hp⟩
    have h2 : (2 : Int) ≤ num := by omega
    exact ⟨h2, (no_small_divisor_iff_prime h2).mpr hp⟩

/-- Membership in the embedded Python range. -/
lemma mem_int_range {start stop n : Int} :
    n ∈ int_range start stop ↔ start ≤ n ∧ n < stop := by
  unfold int_range
  simp only [List.mem_map, List.mem_range]
  constructor
  · rintro ⟨k, hk, rfl⟩
    omega
  · rintro ⟨h1, h2⟩
    exact ⟨(n - start).toNat, by omega, by omega⟩

/-- The embedded Python range is strictly increasing. -/
lemma int_range_pairwise (start stop : Int) :
    (int_range start stop).Pairwise (· < ·) := by
  unfold int_range
  rw [List.pairwise_map]
  apply List.Pairwise.imp ?_ (List.sorted_lt_range _)
  intro a b hab
  omega

/-- `find_primes` output is strictly increasing. -/
lemma find_primes_pairwise (start e : Int) :
    (find_primes start e).Pairwise (· < ·) :=
  (int_range_pairwise start (e + 1)).sublist (List.filter_sublist _)

/-- Membership in the output of `find_primes`. -/
lemma mem_find_primes {start e n : Int} :
    n ∈ find_primes start e ↔ (start ≤ n ∧ n ≤ e ∧ 1 < n ∧ Nat.Prime n.toNat) := by
  unfold find_primes
  rw [List.mem_filter, mem_int_range]
  rw [is_prime_iff_nat_prime_aux]
  constructor
  · rintro ⟨⟨h1, h2⟩, h3, h4⟩
    exact ⟨h1, by omega, h3, h4⟩
  · rintro ⟨h1, h2, h3, h4⟩
    exact ⟨⟨h1, by omega⟩, h3, h4⟩

/-- Characterisation of the spec-modelled naive trial division by absence of
divisors up to the square root. -/
lemma naive_is_prime_iff_aux (num : Int) :
    naive_is_prime num = true ↔
      (2 ≤ num ∧ ∀ d : Int, 2 ≤ d → d * d ≤ num → ¬ d ∣ num) := by
  unfold naive_is_prime
  split
  next h =>
    refine iff_of_false (by simp) ?_
    rintro ⟨h2, _⟩
    omega
  next h =>
    push_neg at h
    rw [List.all_eq_true]
    have hnn : (num.toNat : Int) = num := Int.toNat_of_nonneg (by omega)
    constructor
    · intro hall
      refine ⟨h, ?_⟩
      intro d hd2 hdd hdvd
      have h0 : (0 : Int) ≤ d := by omega
      have hsqle : d.toNat * d.toNat ≤ num.toNat := by
        rw [Int.le_toNat (by omega : (0:Int) ≤ num)]
        push_cast [Int.toNat_of_nonneg h0]
        exact hdd
      have hmem : d.toNat ∈ List.range' 2 (num.toNat.sqrt - 1) := by
        rw [List.mem_range'_1]
        have hsq : d.toNat ≤ num.toNat.sqrt := Nat.le_sqrt.mpr hsqle
        have hpos : 1 ≤ num.toNat.sqrt := Nat.sqrt_pos.mpr (by omega)
        omega
      have hres := hall d.toNat hmem
      simp only [Bool.not_eq_true', beq_eq_false_iff_ne, ne_eq] at hres
      apply hres
      rw [Int.toNat_of_nonneg h0]
      exact Int.emod_eq_zero_of_dvd hdvd
    · rintro ⟨-, hAll⟩
      intro d hd
      rw [List.mem_range'_1] at hd
      simp only [Bool.not_eq_true', beq_eq_false_iff_ne, ne_eq]
      intro hmod
      have hdd : (d : Int) * d ≤ num := by
        have h1 : d ≤ num.toNat.sqrt := by omega
        have h2' : d * d ≤ num.toNat := Nat.le_sqrt.mp h1
        have h3 : ((d * d : ℕ) : Int) ≤ ((num.toNat : ℕ) : Int) := by exact_mod_cast h2'
        rw [hnn] at h3
        push_cast at h3
        exact h3
      exact hAll d (by exact_mod_cast hd.1) hdd (Int.dvd_iff_emod_eq_zero.mpr hmod)

/-- Both primality tests agree with the same mathematical predicate, hence with
each other. -/
lemma is_prime_eq_naive_aux (num : Int) : is_prime num = naive_is_prime num := by
  cases h1 : is_prime num
  · cases h2 : naive_is_prime num
    · rfl
    · exact absurd ((is_prime_iff_aux num).mpr ((naive_is_prime_iff_aux num).mp h2))
        (by simp [h1])
  · exact ((naive_is_prime_iff_aux num).mpr ((is_prime_iff_aux num).mp h1)).symm

/-- Computable restatement of `is_prime`, used for evaluating it at concrete
inputs without unfolding the well-founded loop. -/
lemma is_prime_eq_decide (num : Int) :
    is_prime num = decide (1 < num ∧ Nat.Prime num.toNat) := by
  cases h : is_prime num
  · symm
    rw [decide_eq_false_iff_not]
    intro hc
    rw [← is_prime_iff_nat_prime_aux] at hc
    rw [h] at hc
    exact absurd hc (by simp)
  · symm
    rw [decide_eq_true_eq]
    exact (is_prime_iff_nat_prime_aux num).mp h

/-- The trial-division while-loop terminates from every state. -/
lemma loopTerm_all (num i : Int) : LoopTerm num i := by
  by_cases hguard : i * i ≤ num
  · by_cases hdiv : num % i = 0 ∨ num % (i + 2) = 0
    · exact LoopTerm.exit num i hguard hdiv
    · exact LoopTerm.step num i hguard hdiv (loopTerm_all num (i + 6))
  · exact LoopTerm.done num i hguard
termination_by (num + 1 - i).toNat
decreasing_by
  have h1 : i ≤ i * i := int_le_mul_self i
  have h2 : i ≤ num := le_trans h1 hguard
  omega

/-- C1: for every pair of integers `start` and `end`, `find_primes start end`
returns the ascending ordered sequence (strictly increasing, hence each element
appears exactly once) containing exactly the integers `n` with
`start ≤ n ≤ end` that are prime. -/
theorem find_primes_spec (start e : Int) :
    List.Sorted (· < ·) (find_primes start e) ∧
    ∀ n : Int, n ∈ find_primes start e ↔
      (start ≤ n ∧ n ≤ e ∧ 1 < n ∧ Nat.Prime n.toNat) :=
  ⟨find_primes_pairwise start e, fun _ => mem_find_primes⟩

/-- C2: for every integer `num`, `is_prime num` returns `True` if and only if
`num` is a prime number (a positive integer whose natural-number value is
prime); in particular it is `True` on 2, 3, 5, 7, 11, 13 and `False` on
4, 6, 8, 9, 10, 12. -/
theorem is_prime_spec (num : Int) :
    is_prime num = true ↔ (1 < num ∧ Nat.Prime num.toNat) :=
  is_prime_iff_nat_prime_aux num

/-- C3: the 6k±1-optimised primality test returns, for every integer `num`, the
same result as naive trial division checking every candidate factor from 2 up
to the square root of `num`. -/
theorem is_prime_eq_naive (num : Int) : is_prime num = naive_is_prime num :=
  is_prime_eq_naive_aux num

/-- C4: for every integer `n` with `n ≤ 1` (negative integers, 0 and 1
included), `is_prime n` returns `False`. -/
theorem is_prime_nonpos (num : Int) (h : num ≤ 1) : is_prime num = false := by
  unfold is_prime
  rw [if_pos h]

/-- Witness for C4 at the concrete input -7. -/
theorem is_prime_nonpos_witness : is_prime (-7) = false :=
  is_prime_nonpos (-7) (by decide)

/-- C5: for every pair of integers with `start > end`, `find_primes` returns
the empty sequence. -/
theorem find_primes_empty_of_gt (start e : Int) (h : e < start) :
    find_primes start e = [] := by
  unfold find_primes int_range
  have h0 : (e + 1 - start).toNat = 0 := by omega
  rw [h0]
  rfl

/-- Witness for C5 at the concrete input start = 5, end = 3. -/
theorem find_primes_empty_of_gt_witness : find_primes 5 3 = [] :=
  find_primes_empty_of_gt 5 3 (by decide)

/-- C6: the driver run on arguments 10 and 20 writes to the file named exactly
`primes_10_20.txt` the string that concatenates, in ascending order, the
decimal rendering of each prime in [10, 20] followed by a newline, namely
"11\n13\n17\n19\n", with no header or trailer. -/
theorem driver_output_scenario :
    output_file_name 10 20 = "primes_10_20.txt" ∧
    output_content 10 20 = "11\n13\n17\n19\n" ∧
    run_driver ["prime_search.py", "10", "20"] =
      DriverResult.wroteFile "primes_10_20.txt" "11\n13\n17\n19\n" := by
  have hfp : find_primes 10 20 = [11, 13, 17, 19] := by
    unfold find_primes
    simp only [is_prime_eq_decide]
    decide
  have hcontent : output_content 10 20 = "11\n13\n17\n19\n" := by
    unfold output_content
    rw [hfp]
    decide
  have hname : output_file_name 10 20 = "primes_10_20.txt" := by decide
  refine ⟨hname, hcontent, ?_⟩
  have hrun : run_driver ["prime_search.py", "10", "20"] =
      DriverResult.wroteFile (output_file_name 10 20) (output_content 10 20) := rfl
  rw [hrun, hname, hcontent]

/-- C7: for every invocation whose argument count is not exactly two (argv of
length other than 3, program name included), the driver prints the usage
message, exits with status 1, and writes no file. -/
theorem driver_usage (argv : List String) (h : argv.length ≠ 3) :
    run_driver argv =
      DriverResult.usageExit "Usage: python prime_search.py <start> <end>" 1 ∧
    files_written (run_driver argv) = [] := by
  match argv with
  | [] => exact ⟨rfl, rfl⟩
  | [_] => exact ⟨rfl, rfl⟩
  | [_, _] => exact ⟨rfl, rfl⟩
  | [_, _, _] => exact absurd rfl h
  | _ :: _ :: _ :: _ :: _ => exact ⟨rfl, rfl⟩

/-- Witness for C7: invocation with a single argument. -/
theorem driver_usage_witness :
    run_driver ["prime_search.py", "10"] =
      DriverResult.usageExit "Usage: python prime_search.py <start> <end>" 1 ∧
    files_written (run_driver ["prime_search.py", "10"]) = [] :=
  driver_usage ["prime_search.py", "10"] (by decide)

/-- C8: for every invocation with exactly two arguments of which at least one
is not a valid integer literal, the driver terminates abnormally with an
uncaught parsing error and writes no output file. -/
theorem driver_parse_fail (p a b : String)
    (h : parse_int a = none ∨ parse_int b = none) :
    run_driver [p, a, b] = DriverResult.parseError ∧
    files_written (run_driver [p, a, b]) = [] := by
  have heq : run_driver [p, a, b] =
      (match parse_int a, parse_int b with
        | some s, some e =>
            DriverResult.wroteFile (output_file_name s e) (output_content s e)
        | _, _ => DriverResult.parseError) := rfl
  rw [heq]
  rcases h with h | h
  · rw [h]
    cases parse_int b <;> exact ⟨rfl, rfl⟩
  · rw [h]
    cases parse_int a <;> exact ⟨rfl, rfl⟩

/-- Witness for C8: second argument not an integer literal. -/
theorem driver_parse_fail_witness :
    run_driver ["prime_search.py", "abc", "5"] = DriverResult.parseError ∧
    files_written (run_driver ["prime_search.py", "abc", "5"]) = [] :=
  driver_parse_fail "prime_search.py" "abc" "5" (Or.inl (by decide))

/-- C9: the program is deterministic and idempotent: a second run with the same
bounds overwrites the file with identical content (no accumulation), and runs
from any two prior file-system states produce the same name and content. -/
theorem driver_idempotent (fs fs' : String → Option String) (start e : Int) :
    run_on (run_on fs start e) start e = run_on fs start e ∧
    run_on fs start e (output_file_name start e) =
      run_on fs' start e (output_file_name start e) := by
  constructor
  · funext name
    by_cases hn : name = output_file_name start e
    · simp [run_on, hn]
    · simp [run_on, hn]
  · simp [run_on]

/-- C10: `is_prime` is total: for every integer `num` the trial-division loop,
entered with `i = 5`, terminates, the loop variable strictly increasing by 6
while its square stays at most `num`. -/
theorem loop_terminates (num : Int) : LoopTerm num 5 :=
  loopTerm_all num 5

end PrimeSearch
